import Mathlib

/-!
Verification of the position-accounting ledger of qf-lib
(`qf_lib/backtesting/portfolio/backtest_position.py`).

The Python class `BacktestPosition` is embedded shallowly: its mutable
fields become a Lean structure, `transact_transaction` and `update_price`
become pure functions returning the new state (paired with an
`Except`-style result mirroring the assertion failures of the source),
and the derived valuation methods become pure functions of the state.
Real-valued quantities are modelled with `ℚ` so everything is executable.
-/

namespace QfLib

/-- Modelled from the spec: `Contract` is an external opaque identity key,
used only for equality comparison; we represent it by an integer id. -/
abbrev Contract := ℤ

/-- Modelled from the spec: a `Transaction` is an external immutable value
with a contract reference, a signed quantity (positive = buy, negative =
sell), a price and a commission (the timestamp is ignored by the ledger's
arithmetic, only its ordering matters, which the transaction list keeps). -/
structure Transaction where
  contract : Contract
  quantity : ℚ
  price : ℚ
  commission : ℚ
  deriving Repr, DecidableEq

/-- `numpy.sign`, as used by the source on quantities and share counts. -/
def sign (x : ℚ) : ℤ :=
  if 0 < x then 1 else if x < 0 then -1 else 0

/-- The state of `BacktestPosition`: the fields set up by `__init__`. -/
structure BacktestPosition where
  contract : Contract
  is_closed : Bool
  transactions : List Transaction
  number_of_shares : ℚ
  current_price : ℚ
  direction : ℤ
  deriving Repr, DecidableEq

/-- `BacktestPosition.__init__(contract)`. -/
def initial (c : Contract) : BacktestPosition :=
  { contract := c
    is_closed := false
    transactions := []
    number_of_shares := 0
    current_price := 0
    direction := 0 }

/-- The four assertion-failure kinds of the ledger (spec section 7):
`_check_if_open` raises `InvalidStateError`, `_check_if_direction_does_not_change`
raises `DirectionViolationError`, the contract assertion raises
`ContractMismatchError`, the quantity and price assertions raise
`InvalidTransactionError`. -/
inductive PositionError where
  | invalidState
  | directionViolation
  | contractMismatch
  | invalidTransaction
  deriving Repr, DecidableEq

/-- `BacktestPosition._calculate_cost_of_transaction`. -/
def calculate_cost_of_transaction (t : Transaction) : ℚ :=
  t.price * t.quantity + t.commission

/-- `BacktestPosition.transact_transaction`.  The checks appear in the
source order: `_check_if_open`, `_check_if_direction_does_not_change`,
then the contract, quantity and price assertions; only after all of them
does the method mutate the state.  The returned pair is (result, state
after the call); a failed assertion leaves the state unchanged. -/
def transact_transaction (s : BacktestPosition) (t : Transaction) :
    Except PositionError ℚ × BacktestPosition :=
  if s.is_closed then (.error .invalidState, s)
  else if ¬ |sign (s.number_of_shares + t.quantity) - s.direction| < 2 then
    (.error .directionViolation, s)
  else if t.contract ≠ s.contract then (.error .contractMismatch, s)
  else if t.quantity = 0 then (.error .invalidTransaction, s)
  else if ¬ 0 < t.price then (.error .invalidTransaction, s)
  else
    let dir := if s.transactions = [] then sign t.quantity else s.direction
    let shares := s.number_of_shares + t.quantity
    (.ok (calculate_cost_of_transaction t),
      { s with
        direction := dir
        transactions := s.transactions ++ [t]
        number_of_shares := shares
        is_closed := if shares = 0 then true else s.is_closed })

/-- `BacktestPosition.update_price`: `_check_if_open`, then mark long
positions at the bid and short positions at the ask; a flat position's
price is left unchanged. -/
def update_price (s : BacktestPosition) (bid ask : ℚ) :
    Except PositionError BacktestPosition :=
  if s.is_closed then .error .invalidState
  else if 0 < s.number_of_shares then .ok { s with current_price := bid }
  else if s.number_of_shares < 0 then .ok { s with current_price := ask }
  else .ok s

/-- `BacktestPosition.market_value`. -/
def market_value (s : BacktestPosition) : ℚ :=
  s.number_of_shares * s.current_price

/-- `BacktestPosition.cost_basis`. -/
def cost_basis (s : BacktestPosition) : ℚ :=
  if s.number_of_shares = 0 then 0
  else (s.transactions.map (fun t => t.price * t.quantity + t.commission)).sum

/-- `BacktestPosition.avg_cost_per_share`: fold over the transactions
whose quantity sign matches the position's direction. -/
def avg_cost_per_share (s : BacktestPosition) : ℚ :=
  let qualifying := s.transactions.filter (fun t => sign t.quantity = s.direction)
  let cost := (qualifying.map (fun t => t.price * t.quantity + t.commission)).sum
  let shares := (qualifying.map (fun t => t.quantity)).sum
  if shares = 0 then 0 else cost / shares

/-- `BacktestPosition.unrealised_pnl`. -/
def unrealised_pnl (s : BacktestPosition) : ℚ :=
  market_value s - cost_basis s

/-- `BacktestPosition.realized_pnl`: fold over the transactions whose
quantity sign differs from the position's direction. -/
def realized_pnl (s : BacktestPosition) : ℚ :=
  let avg_cost_ps := avg_cost_per_share s
  ((s.transactions.filter (fun t => sign t.quantity ≠ s.direction)).map
    (fun t => (t.price - avg_cost_ps) * (-t.quantity) - t.commission)).sum

/-- States reachable from a fresh position by successful `transact_transaction`
calls only (no successful `update_price` ever applied). -/
inductive ReachableT : BacktestPosition → Prop where
  | init (c : Contract) : ReachableT (initial c)
  | transact (s : BacktestPosition) (t : Transaction) (q : ℚ) (s2 : BacktestPosition) :
      ReachableT s → transact_transaction s t = (Except.ok q, s2) → ReachableT s2

/-- States reachable from a fresh position by successful `transact_transaction`
and `update_price` calls. -/
inductive Reachable : BacktestPosition → Prop where
  | init (c : Contract) : Reachable (initial c)
  | transact (s : BacktestPosition) (t : Transaction) (q : ℚ) (s2 : BacktestPosition) :
      Reachable s → transact_transaction s t = (Except.ok q, s2) → Reachable s2
  | update (s : BacktestPosition) (bid ask : ℚ) (s2 : BacktestPosition) :
      Reachable s → update_price s bid ask = Except.ok s2 → Reachable s2

/-! ### Basic lemmas about `sign` -/

lemma sign_eq_one_iff (x : ℚ) : sign x = 1 ↔ 0 < x := by
  unfold sign
  split_ifs with h1 h2
  · simp [h1]
  · simp [h1]
  · simp [h1]

lemma sign_eq_neg_one_iff (x : ℚ) : sign x = -1 ↔ x < 0 := by
  unfold sign
  split_ifs with h1 h2
  · simp [lt_asymm h1]
  · simp [h2]
  · simp [h2]

lemma sign_eq_zero_iff (x : ℚ) : sign x = 0 ↔ x = 0 := by
  unfold sign
  split_ifs with h1 h2
  · simp
    exact ne_of_gt h1
  · simp
    exact ne_of_lt h2
  · simp
    linarith

lemma sign_trichotomy (x : ℚ) : sign x = 1 ∨ sign x = 0 ∨ sign x = -1 := by
  unfold sign; split_ifs <;> simp

/-! ### Destructuring `transact_transaction` -/

/-- A successful `transact_transaction` call: all five checks passed, the
result is the transaction's cost, and the new state is the old one with the
direction possibly fixed, the transaction appended, the shares updated and
the position closed when the shares reach zero. -/
lemma transact_ok {s : BacktestPosition} {t : Transaction} {q : ℚ}
    {s2 : BacktestPosition}
    (h : transact_transaction s t = (Except.ok q, s2)) :
    s.is_closed = false ∧
    |sign (s.number_of_shares + t.quantity) - s.direction| < 2 ∧
    t.contract = s.contract ∧ t.quantity ≠ 0 ∧ 0 < t.price ∧
    q = calculate_cost_of_transaction t ∧
    s2 = { s with
           direction := if s.transactions = [] then sign t.quantity else s.direction
           transactions := s.transactions ++ [t]
           number_of_shares := s.number_of_shares + t.quantity
           is_closed := if s.number_of_shares + t.quantity = 0 then true
                        else s.is_closed } := by
  unfold transact_transaction at h
  split_ifs at h with h1 h2 h3 h4 h5 <;> simp_all

/-- A failed `transact_transaction` call leaves the state unchanged. -/
lemma transact_error {s : BacktestPosition} {t : Transaction}
    {e : PositionError} {s2 : BacktestPosition}
    (h : transact_transaction s t = (Except.error e, s2)) : s2 = s := by
  unfold transact_transaction at h
  split_ifs at h <;> simp_all

/-! ### The state invariant -/

/-- The facts that hold in every reachable state of a `BacktestPosition`. -/
structure Inv (s : BacktestPosition) : Prop where
  shares_eq : s.number_of_shares = (s.transactions.map Transaction.quantity).sum
  closed_iff : s.is_closed = true ↔ (s.number_of_shares = 0 ∧ s.transactions ≠ [])
  dir_empty : s.transactions = [] → s.direction = 0
  dir_set : s.transactions ≠ [] → s.direction = 1 ∨ s.direction = -1
  sign_shares : s.is_closed = false → s.transactions ≠ [] →
    sign s.number_of_shares = s.direction
  txn_valid : ∀ t ∈ s.transactions, t.quantity ≠ 0 ∧ 0 < t.price

lemma inv_initial (c : Contract) : Inv (initial c) := by
  constructor <;> simp [initial]

lemma inv_transact {s : BacktestPosition} {t : Transaction} {q : ℚ}
    {s2 : BacktestPosition} (hi : Inv s)
    (h : transact_transaction s t = (Except.ok q, s2)) : Inv s2 := by
  obtain ⟨hopen, hdir, hcon, hqty, hprice, hq, hs2⟩ := transact_ok h
  subst hs2
  have htx : ∀ u ∈ s.transactions ++ [t], u.quantity ≠ 0 ∧ 0 < u.price := by
    intro u hu
    rcases List.mem_append.mp hu with hu | hu
    · exact hi.txn_valid u hu
    · rw [List.mem_singleton] at hu
      subst hu
      exact ⟨hqty, hprice⟩
  refine ⟨?_, ?_, ?_, ?_, ?_, htx⟩
  · dsimp only
    simp [hi.shares_eq]
  · dsimp only
    split_ifs with hz
    · simp [hz]
    · simp [hopen, hz]
  · dsimp only
    simp
  · dsimp only
    intro _
    split_ifs with he
    · rcases sign_trichotomy t.quantity with h1 | h1 | h1
      · exact Or.inl h1
      · exact absurd ((sign_eq_zero_iff t.quantity).mp h1) hqty
      · exact Or.inr h1
    · exact hi.dir_set he
  · dsimp only
    intro hcl _
    split_ifs at hcl with hz
    by_cases he : s.transactions = []
    · have hzero : s.number_of_shares = 0 := by
        rw [hi.shares_eq, he]
        simp
      rw [if_pos he, hzero, zero_add]
    · rw [if_neg he]
      have hds := hi.dir_set he
      have hss := hi.sign_shares hopen he
      rw [abs_lt] at hdir
      rcases sign_trichotomy (s.number_of_shares + t.quantity) with h1 | h1 | h1
      · rw [h1] at hdir ⊢
        rcases hds with hd | hd <;> omega
      · exact absurd ((sign_eq_zero_iff _).mp h1) hz
      · rw [h1] at hdir ⊢
        rcases hds with hd | hd <;> omega

lemma inv_update {s : BacktestPosition} {bid ask : ℚ} {s2 : BacktestPosition}
    (hi : Inv s) (h : update_price s bid ask = Except.ok s2) : Inv s2 := by
  unfold update_price at h
  split_ifs at h with h1 h2 h3
  · have hs : s2 = { s with current_price := bid } := by
      rw [Except.ok.injEq] at h
      exact h.symm
    subst hs
    exact ⟨hi.shares_eq, hi.closed_iff, hi.dir_empty, hi.dir_set,
      hi.sign_shares, hi.txn_valid⟩
  · have hs : s2 = { s with current_price := ask } := by
      rw [Except.ok.injEq] at h
      exact h.symm
    subst hs
    exact ⟨hi.shares_eq, hi.closed_iff, hi.dir_empty, hi.dir_set,
      hi.sign_shares, hi.txn_valid⟩
  · have hs : s2 = s := by
      rw [Except.ok.injEq] at h
      exact h.symm
    subst hs
    exact hi

/-- Every reachable state satisfies the invariant. -/
lemma reachable_inv {s : BacktestPosition} (h : Reachable s) : Inv s := by
  induction h with
  | init c => exact inv_initial c
  | transact s t q s2 _ hstep ih => exact inv_transact ih hstep
  | update s bid ask s2 _ hstep ih => exact inv_update ih hstep

/-- Transact-only reachability implies full reachability. -/
lemma reachableT_reachable {s : BacktestPosition} (h : ReachableT s) :
    Reachable s := by
  induction h with
  | init c => exact Reachable.init c
  | transact s t q s2 _ hstep ih => exact Reachable.transact s t q s2 ih hstep

/-! ### List sum sign helpers -/

lemma list_sum_nonneg (l : List ℚ) (h : ∀ x ∈ l, 0 ≤ x) : 0 ≤ l.sum := by
  induction l with
  | nil => simp
  | cons a l ih =>
    rw [List.sum_cons]
    exact add_nonneg (h a (List.mem_cons_self a l))
      (ih fun x hx => h x (List.mem_cons_of_mem a hx))

lemma list_sum_nonpos (l : List ℚ) (h : ∀ x ∈ l, x ≤ 0) : l.sum ≤ 0 := by
  induction l with
  | nil => simp
  | cons a l ih =>
    rw [List.sum_cons]
    exact add_nonpos (h a (List.mem_cons_self a l))
      (ih fun x hx => h x (List.mem_cons_of_mem a hx))

/-! ### Concrete scenario (the worked example of the spec, plus variants)

A long position on contract `0`: buy 10 shares at 100 with commission 1,
sell 4 at 110 with commission 1, sell the remaining 6 at 108 with
commission 1 (closing the position). -/

def txn_buy10 : Transaction := ⟨0, 10, 100, 1⟩

def txn_sell4 : Transaction := ⟨0, -4, 110, 1⟩

def txn_sell6 : Transaction := ⟨0, -6, 108, 1⟩

def pos0 : BacktestPosition := initial 0

def pos1 : BacktestPosition :=
  { contract := 0, is_closed := false, transactions := [txn_buy10],
    number_of_shares := 10, current_price := 0, direction := 1 }

def pos2 : BacktestPosition :=
  { contract := 0, is_closed := false, transactions := [txn_buy10, txn_sell4],
    number_of_shares := 6, current_price := 0, direction := 1 }

def pos3 : BacktestPosition :=
  { contract := 0, is_closed := true,
    transactions := [txn_buy10, txn_sell4, txn_sell6],
    number_of_shares := 0, current_price := 0, direction := 1 }

lemma transact_pos0 :
    transact_transaction pos0 txn_buy10 = (Except.ok 1001, pos1) := by
  norm_num [transact_transaction, pos0, pos1, txn_buy10, initial, sign,
    calculate_cost_of_transaction]

lemma transact_pos1 :
    transact_transaction pos1 txn_sell4 = (Except.ok (-439), pos2) := by
  norm_num [transact_transaction, pos1, pos2, txn_buy10, txn_sell4, sign,
    calculate_cost_of_transaction]

lemma transact_pos2 :
    transact_transaction pos2 txn_sell6 = (Except.ok (-647), pos3) := by
  norm_num [transact_transaction, pos2, pos3, txn_buy10, txn_sell4, txn_sell6,
    sign, calculate_cost_of_transaction]
  decide

lemma reachableT_pos1 : ReachableT pos1 :=
  ReachableT.transact pos0 txn_buy10 1001 pos1 (ReachableT.init 0) transact_pos0

lemma reachableT_pos2 : ReachableT pos2 :=
  ReachableT.transact pos1 txn_sell4 (-439) pos2 reachableT_pos1 transact_pos1

lemma reachableT_pos3 : ReachableT pos3 :=
  ReachableT.transact pos2 txn_sell6 (-647) pos3 reachableT_pos2 transact_pos2

/-- A long position built by a single buy of 5 shares at 10, commission 0. -/
def txn_buy5 : Transaction := ⟨0, 5, 10, 0⟩

def pos5 : BacktestPosition :=
  { contract := 0, is_closed := false, transactions := [txn_buy5],
    number_of_shares := 5, current_price := 0, direction := 1 }

lemma transact_pos0_buy5 :
    transact_transaction pos0 txn_buy5 = (Except.ok 50, pos5) := by
  norm_num [transact_transaction, pos0, pos5, txn_buy5, initial, sign,
    calculate_cost_of_transaction]

lemma reachable_pos5 : Reachable pos5 :=
  Reachable.transact pos0 txn_buy5 50 pos5 (Reachable.init 0) transact_pos0_buy5

/-- A buy of one share at 10 carrying a large negative commission. -/
def txn_neg_comm : Transaction := ⟨0, 1, 10, -100⟩

def pos7 : BacktestPosition :=
  { contract := 0, is_closed := false, transactions := [txn_neg_comm],
    number_of_shares := 1, current_price := 0, direction := 1 }

lemma transact_pos0_neg_comm :
    transact_transaction pos0 txn_neg_comm = (Except.ok (-90), pos7) := by
  norm_num [transact_transaction, pos0, pos7, txn_neg_comm, initial, sign,
    calculate_cost_of_transaction]

lemma reachable_pos7 : Reachable pos7 :=
  Reachable.transact pos0 txn_neg_comm (-90) pos7 (Reachable.init 0)
    transact_pos0_neg_comm

/-! ### The claims -/

/-- Claim C1: after every sequence of accepted calls (an invariant of every
reachable state), `number_of_shares` equals the sum of the quantities of all
recorded transactions. -/
theorem C1_shares_eq_sum_of_quantities (s : BacktestPosition)
    (h : Reachable s) :
    s.number_of_shares = (s.transactions.map Transaction.quantity).sum :=
  (reachable_inv h).shares_eq

/-- Claim C1, witness: the invariant evaluated on the concrete two-transaction
long position of the spec's worked example. -/
theorem C1_shares_eq_sum_of_quantities_witness :
    pos2.number_of_shares = (pos2.transactions.map Transaction.quantity).sum := by
  have h := C1_shares_eq_sum_of_quantities pos2
    (reachableT_reachable reachableT_pos2)
  exact h

/-- Claim C2: in every reachable state `is_closed` holds iff the share count
is zero and at least one transaction has been recorded; once closed, every
`transact_transaction` call fails with `InvalidStateError` and leaves the
state unchanged, and `update_price` fails likewise, so the closed state is
terminal. -/
theorem C2_closed_iff_flat_and_terminal :
    (∀ s : BacktestPosition, Reachable s →
      (s.is_closed = true ↔ (s.number_of_shares = 0 ∧ s.transactions ≠ []))) ∧
    (∀ (s : BacktestPosition) (t : Transaction), s.is_closed = true →
      transact_transaction s t = (Except.error PositionError.invalidState, s)) ∧
    (∀ (s : BacktestPosition) (bid ask : ℚ), s.is_closed = true →
      update_price s bid ask = Except.error PositionError.invalidState) := by
  refine ⟨fun s h => (reachable_inv h).closed_iff, ?_, ?_⟩
  · intro s t h
    unfold transact_transaction
    rw [if_pos h]
  · intro s bid ask h
    unfold update_price
    rw [if_pos h]

/-- Claim C2, witness: the closed position reached by fully unwinding the
worked example satisfies the iff, and a further buy on it fails with
`InvalidStateError` leaving it unchanged. -/
theorem C2_closed_iff_flat_and_terminal_witness :
    (pos3.is_closed = true ↔
      (pos3.number_of_shares = 0 ∧ pos3.transactions ≠ [])) ∧
    transact_transaction pos3 txn_buy10 =
      (Except.error PositionError.invalidState, pos3) ∧
    update_price pos3 105 106 = Except.error PositionError.invalidState :=
  ⟨C2_closed_iff_flat_and_terminal.1 pos3 (reachableT_reachable reachableT_pos3),
   C2_closed_iff_flat_and_terminal.2.1 pos3 txn_buy10 rfl,
   C2_closed_iff_flat_and_terminal.2.2 pos3 105 106 rfl⟩

/-- Claim C5: `update_price` fails with `InvalidStateError` on a closed
position; otherwise it sets the current price to the bid when long, to the
ask when short, and leaves the state (in particular the price) unchanged
when flat. -/
theorem C5_update_price_policy (s : BacktestPosition) (bid ask : ℚ) :
    (s.is_closed = true →
      update_price s bid ask = Except.error PositionError.invalidState) ∧
    (s.is_closed = false → 0 < s.number_of_shares →
      update_price s bid ask = Except.ok { s with current_price := bid }) ∧
    (s.is_closed = false → s.number_of_shares < 0 →
      update_price s bid ask = Except.ok { s with current_price := ask }) ∧
    (s.is_closed = false → s.number_of_shares = 0 →
      update_price s bid ask = Except.ok s) := by
  refine ⟨?_, ?_, ?_, ?_⟩
  · intro h
    unfold update_price
    rw [if_pos h]
  · intro hopen hlong
    unfold update_price
    rw [if_neg (by simp [hopen]), if_pos hlong]
  · intro hopen hshort
    unfold update_price
    rw [if_neg (by simp [hopen]), if_neg (not_lt_of_gt hshort), if_pos hshort]
  · intro hopen hflat
    unfold update_price
    rw [if_neg (by simp [hopen]), if_neg (by simp [hflat]), if_neg (by simp [hflat])]

/-- Claim C5, witness: marking the worked example's long position with
bid 105 / ask 106 sets the current price to the bid, 105. -/
theorem C5_update_price_policy_witness :
    update_price pos1 105 106 = Except.ok { pos1 with current_price := 105 } :=
  (C5_update_price_policy pos1 105 106).2.1 rfl (by norm_num [pos1])

/-- Claim C9: a `transact_transaction` call that fails with any error kind
leaves every field of the position (transactions, number of shares,
direction, closed flag, current price) exactly as it was before the call. -/
theorem C9_failed_transact_preserves_state (s : BacktestPosition)
    (t : Transaction) (e : PositionError)
    (h : (transact_transaction s t).1 = Except.error e) :
    (transact_transaction s t).2 = s ∧
    (transact_transaction s t).2.transactions = s.transactions ∧
    (transact_transaction s t).2.number_of_shares = s.number_of_shares ∧
    (transact_transaction s t).2.direction = s.direction ∧
    (transact_transaction s t).2.is_closed = s.is_closed ∧
    (transact_transaction s t).2.current_price = s.current_price := by
  have hp : transact_transaction s t =
      (Except.error e, (transact_transaction s t).2) := by
    rw [← h]
  have hs := transact_error hp
  rw [hs]
  exact ⟨rfl, rfl, rfl, rfl, rfl, rfl⟩

/-- Claim C9, witness: a buy on the fully closed position of the worked
example fails (with `InvalidStateError`) and changes nothing. -/
theorem C9_failed_transact_preserves_state_witness :
    (transact_transaction pos3 txn_buy10).2 = pos3 ∧
    (transact_transaction pos3 txn_buy10).2.transactions = pos3.transactions ∧
    (transact_transaction pos3 txn_buy10).2.number_of_shares =
      pos3.number_of_shares ∧
    (transact_transaction pos3 txn_buy10).2.direction = pos3.direction ∧
    (transact_transaction pos3 txn_buy10).2.is_closed = pos3.is_closed ∧
    (transact_transaction pos3 txn_buy10).2.current_price =
      pos3.current_price :=
  C9_failed_transact_preserves_state pos3 txn_buy10 PositionError.invalidState
    rfl

/-- Claim C10: as long as no `update_price` call has ever been applied, the
current price keeps its `__init__` value 0, so `market_value` is 0 and
`unrealised_pnl` equals minus the cost basis, even with a nonzero share
count (the worked example's 10-share long position is such a state). -/
theorem C10_price_zero_before_first_update :
    (∀ s : BacktestPosition, ReachableT s →
      s.current_price = 0 ∧ market_value s = 0 ∧
      unrealised_pnl s = -(cost_basis s)) ∧
    pos1.number_of_shares ≠ 0 ∧ market_value pos1 = 0 ∧
    unrealised_pnl pos1 = -(cost_basis pos1) := by
  have hmain : ∀ s : BacktestPosition, ReachableT s →
      s.current_price = 0 ∧ market_value s = 0 ∧
      unrealised_pnl s = -(cost_basis s) := by
    intro s h
    have hprice : s.current_price = 0 := by
      induction h with
      | init c => rfl
      | transact s t q s2 _ hstep ih =>
        obtain ⟨_, _, _, _, _, _, hs2⟩ := transact_ok hstep
        rw [hs2]
        exact ih
    have hmv : market_value s = 0 := by
      rw [market_value, hprice, mul_zero]
    exact ⟨hprice, hmv, by rw [unrealised_pnl, hmv, zero_sub]⟩
  refine ⟨hmain, by norm_num [pos1], (hmain pos1 reachableT_pos1).2.1,
    (hmain pos1 reachableT_pos1).2.2⟩

/-- Claim C10, witness: the invariant applied to the concrete 10-share long
position before any price update. -/
theorem C10_price_zero_before_first_update_witness :
    pos1.current_price = 0 ∧ market_value pos1 = 0 ∧
    unrealised_pnl pos1 = -(cost_basis pos1) :=
  C10_price_zero_before_first_update.1 pos1 reachableT_pos1

/-- Claim C3: on an open position whose direction is set, a transaction
whose application would move the share count from one strict sign directly
to the opposite strict sign is rejected with `DirectionViolationError`
(leaving the state unchanged), while an otherwise valid transaction that
brings the share count exactly to zero or keeps it on the position's side
is accepted. -/
theorem C3_direction_flip_rejected (s : BacktestPosition) (t : Transaction)
    (hr : Reachable s) (hopen : s.is_closed = false) (hd : s.direction ≠ 0) :
    (((0 < s.number_of_shares ∧ s.number_of_shares + t.quantity < 0) ∨
      (s.number_of_shares < 0 ∧ 0 < s.number_of_shares + t.quantity)) →
      transact_transaction s t =
        (Except.error PositionError.directionViolation, s)) ∧
    (t.contract = s.contract → t.quantity ≠ 0 → 0 < t.price →
      (s.number_of_shares + t.quantity = 0 ∨
        sign (s.number_of_shares + t.quantity) = sign s.number_of_shares) →
      ∃ (q : ℚ) (s2 : BacktestPosition),
        transact_transaction s t = (Except.ok q, s2)) := by
  have hi := reachable_inv hr
  have hne : s.transactions ≠ [] := by
    intro he
    exact hd (hi.dir_empty he)
  have hss : sign s.number_of_shares = s.direction := hi.sign_shares hopen hne
  constructor
  · intro hflip
    have hcheck : ¬ |sign (s.number_of_shares + t.quantity) - s.direction| < 2 := by
      rcases hflip with ⟨hpos, hneg⟩ | ⟨hneg, hpos⟩
      · have h1 : sign (s.number_of_shares + t.quantity) = -1 :=
          (sign_eq_neg_one_iff _).mpr hneg
        have h2 : s.direction = 1 := by
          rw [← hss]
          exact (sign_eq_one_iff _).mpr hpos
        rw [h1, h2]
        decide
      · have h1 : sign (s.number_of_shares + t.quantity) = 1 :=
          (sign_eq_one_iff _).mpr hpos
        have h2 : s.direction = -1 := by
          rw [← hss]
          exact (sign_eq_neg_one_iff _).mpr hneg
        rw [h1, h2]
        decide
    unfold transact_transaction
    rw [if_neg (by simp [hopen]), if_pos hcheck]
  · intro hcon hqty hprice hok
    have hcheck : |sign (s.number_of_shares + t.quantity) - s.direction| < 2 := by
      have hd3 : s.direction = 1 ∨ s.direction = -1 := hi.dir_set hne
      rcases hok with hz | hsame
      · rw [(sign_eq_zero_iff _).mpr hz]
        rcases hd3 with h | h <;> rw [h] <;> decide
      · rw [hsame, hss]
        simp
      -- a zero-valued absolute difference is below the bound
    unfold transact_transaction
    rw [if_neg (by simp [hopen]), if_neg (not_not_intro hcheck),
      if_neg (not_not_intro hcon), if_neg hqty,
      if_neg (not_not_intro hprice)]
    exact ⟨_, _, rfl⟩

/-- Claim C3, witness: on the 10-share long position, selling 13 shares
(which would land at -3) is rejected with `DirectionViolationError`, while
selling 4 shares (landing at +6) is accepted. -/
theorem C3_direction_flip_rejected_witness :
    transact_transaction pos1 ⟨0, -13, 50, 0⟩ =
      (Except.error PositionError.directionViolation, pos1) ∧
    ∃ (q : ℚ) (s2 : BacktestPosition),
      transact_transaction pos1 txn_sell4 = (Except.ok q, s2) := by
  constructor
  · exact (C3_direction_flip_rejected pos1 ⟨0, -13, 50, 0⟩
      (reachableT_reachable reachableT_pos1) rfl (by norm_num [pos1])).1
      (Or.inl (by norm_num [pos1]))
  · exact (C3_direction_flip_rejected pos1 txn_sell4
      (reachableT_reachable reachableT_pos1) rfl (by norm_num [pos1])).2
      rfl (by norm_num [txn_sell4]) (by norm_num [txn_sell4])
      (Or.inr (by norm_num [pos1, txn_sell4, sign]))

/-- A buy of 10 shares at 100 whose commission is a large negative number. -/
def txn_huge_comm : Transaction := ⟨0, 10, 100, -2000⟩

/-- Claim C4, counterexample: a buy (positive quantity) accepted from the
fresh position returns `100 * 10 + (-2000) = -1000`, a negative cash flow,
so the returned value is not always positive for a buy. -/
theorem C4_cash_flow_counterexample :
    Reachable pos0 ∧ 0 < txn_huge_comm.quantity ∧
    (transact_transaction pos0 txn_huge_comm).1 = Except.ok (-1000) ∧
    (-1000 : ℚ) < 0 := by
  refine ⟨Reachable.init 0, by norm_num [txn_huge_comm], ?_, by norm_num⟩
  norm_num [transact_transaction, pos0, txn_huge_comm, initial, sign,
    calculate_cost_of_transaction]

/-- Claim C4, amended: every accepted transaction returns exactly
`price * quantity + commission`; this is positive for a buy and negative
for a sell provided the commission's magnitude is below the transaction's
notional `price * |quantity|`; in particular buying 10 shares at 100 with
commission 1 returns 1001. -/
theorem C4_cash_flow_formula :
    (∀ (s : BacktestPosition) (t : Transaction) (q : ℚ)
      (s2 : BacktestPosition),
      transact_transaction s t = (Except.ok q, s2) →
      q = t.price * t.quantity + t.commission ∧
      (|t.commission| < t.price * |t.quantity| →
        (0 < t.quantity → 0 < q) ∧ (t.quantity < 0 → q < 0))) ∧
    (transact_transaction pos0 txn_buy10).1 = Except.ok 1001 := by
  constructor
  · intro s t q s2 h
    obtain ⟨_, _, _, _, _, hq, _⟩ := transact_ok h
    refine ⟨hq, ?_⟩
    intro hcomm
    constructor
    · intro hpos
      rw [abs_of_pos hpos, abs_lt] at hcomm
      rw [hq]
      show 0 < t.price * t.quantity + t.commission
      linarith [hcomm.1]
    · intro hneg
      rw [abs_of_neg hneg, abs_lt] at hcomm
      have hring : t.price * -t.quantity = -(t.price * t.quantity) := by ring
      rw [hring] at hcomm
      rw [hq]
      show t.price * t.quantity + t.commission < 0
      linarith [hcomm.2]
  · rw [transact_pos0]

/-- Claim C4, witness: the amended statement applied to the opening buy of
the worked example. -/
theorem C4_cash_flow_formula_witness :
    (1001 : ℚ) = txn_buy10.price * txn_buy10.quantity + txn_buy10.commission ∧
    (|txn_buy10.commission| < txn_buy10.price * |txn_buy10.quantity| →
      (0 < txn_buy10.quantity → (0 : ℚ) < 1001) ∧
      (txn_buy10.quantity < 0 → (1001 : ℚ) < 0)) :=
  C4_cash_flow_formula.1 pos0 txn_buy10 1001 pos1 transact_pos0

/-- Claim C7, counterexample: after a single buy of one share at price 10
with commission -100 (a reachable state, commissions being arbitrary
reals), the average cost per share is `(10 * 1 + (-100)) / 1 = -90 < 0`. -/
theorem C7_avg_cost_counterexample :
    Reachable pos7 ∧ avg_cost_per_share pos7 = -90 ∧
    avg_cost_per_share pos7 < 0 := by
  refine ⟨reachable_pos7, ?_, ?_⟩ <;>
    norm_num [avg_cost_per_share, pos7, txn_neg_comm, sign, List.filter]

/-- Claim C7, amended: the average cost per share is nonnegative for every
reachable state provided each recorded transaction's commission magnitude
is at most its notional `price * |quantity|` (with arbitrary commissions it
can be negative). -/
theorem C7_avg_cost_nonneg (s : BacktestPosition) (hr : Reachable s)
    (hcomm : ∀ t ∈ s.transactions, |t.commission| ≤ t.price * |t.quantity|) :
    0 ≤ avg_cost_per_share s := by
  have hmem : ∀ u ∈ s.transactions.filter
      (fun t => sign t.quantity = s.direction),
      sign u.quantity = s.direction ∧
        |u.commission| ≤ u.price * |u.quantity| := by
    intro u hu
    rw [List.mem_filter] at hu
    exact ⟨by simpa using hu.2, hcomm u hu.1⟩
  simp only [avg_cost_per_share]
  split_ifs with hz
  · exact le_refl 0
  · by_cases hd1 : s.direction = 1
    · have hqpos : ∀ u ∈ s.transactions.filter
          (fun t => sign t.quantity = s.direction), 0 < u.quantity := by
        intro u hu
        exact (sign_eq_one_iff _).mp (by rw [(hmem u hu).1, hd1])
      have hcost : 0 ≤ ((s.transactions.filter
          (fun t => sign t.quantity = s.direction)).map
          (fun t => t.price * t.quantity + t.commission)).sum := by
        apply list_sum_nonneg
        intro x hx
        rw [List.mem_map] at hx
        obtain ⟨u, hu, rfl⟩ := hx
        have hb := (hmem u hu).2
        rw [abs_of_pos (hqpos u hu), abs_le] at hb
        linarith [hb.1]
      have hsh : 0 ≤ ((s.transactions.filter
          (fun t => sign t.quantity = s.direction)).map
          (fun t => t.quantity)).sum := by
        apply list_sum_nonneg
        intro x hx
        rw [List.mem_map] at hx
        obtain ⟨u, hu, rfl⟩ := hx
        exact le_of_lt (hqpos u hu)
      exact div_nonneg hcost hsh
    · by_cases hd2 : s.direction = -1
      · have hqneg : ∀ u ∈ s.transactions.filter
            (fun t => sign t.quantity = s.direction), u.quantity < 0 := by
          intro u hu
          exact (sign_eq_neg_one_iff _).mp (by rw [(hmem u hu).1, hd2])
        have hcost : ((s.transactions.filter
            (fun t => sign t.quantity = s.direction)).map
            (fun t => t.price * t.quantity + t.commission)).sum ≤ 0 := by
          apply list_sum_nonpos
          intro x hx
          rw [List.mem_map] at hx
          obtain ⟨u, hu, rfl⟩ := hx
          have hb := (hmem u hu).2
          rw [abs_of_neg (hqneg u hu), abs_le] at hb
          have hring : u.price * -u.quantity = -(u.price * u.quantity) := by
            ring
          rw [hring] at hb
          linarith [hb.2]
        have hsh : ((s.transactions.filter
            (fun t => sign t.quantity = s.direction)).map
            (fun t => t.quantity)).sum ≤ 0 := by
          apply list_sum_nonpos
          intro x hx
          rw [List.mem_map] at hx
          obtain ⟨u, hu, rfl⟩ := hx
          exact le_of_lt (hqneg u hu)
        exact div_nonneg_iff.mpr (Or.inr ⟨hcost, hsh⟩)
      · exfalso
        apply hz
        apply List.sum_eq_zero
        intro x hx
        rw [List.mem_map] at hx
        obtain ⟨u, hu, rfl⟩ := hx
        have hs := (hmem u hu).1
        rcases sign_trichotomy u.quantity with h1 | h1 | h1
        · exact absurd (h1 ▸ hs).symm hd1
        · exact (sign_eq_zero_iff _).mp h1
        · exact absurd (h1 ▸ hs).symm hd2

/-- Claim C7, witness: the amended statement on the worked example's long
position, whose single commission 1 is far below the notional 1000. -/
theorem C7_avg_cost_nonneg_witness : 0 ≤ avg_cost_per_share pos1 :=
  C7_avg_cost_nonneg pos1 (reachableT_reachable reachableT_pos1)
    (by norm_num [pos1, txn_buy10])

/-- A transaction on a different contract whose quantity would also flip
the position's direction. -/
def txn_mismatch_flip : Transaction := ⟨1, -8, 10, 0⟩

/-- Claim C8, counterexample: on an open 5-share long position bound to
contract 0, a transaction on contract 1 selling 8 shares fails with
`DirectionViolationError`, not `ContractMismatchError`: the direction check
runs before the contract check, so the error kind does depend on the
direction the transaction would imply. -/
theorem C8_contract_mismatch_counterexample :
    Reachable pos5 ∧ pos5.is_closed = false ∧
    txn_mismatch_flip.contract ≠ pos5.contract ∧
    transact_transaction pos5 txn_mismatch_flip =
      (Except.error PositionError.directionViolation, pos5) ∧
    PositionError.directionViolation ≠ PositionError.contractMismatch := by
  refine ⟨reachable_pos5, rfl, by decide, ?_, by decide⟩
  norm_num [transact_transaction, pos5, txn_mismatch_flip, sign]

/-- Claim C8, amended: a transaction whose contract differs from the
position's is rejected with `ContractMismatchError` whatever its quantity
and price, provided it would not also flip the position's direction (in
that case the direction check, which runs first, reports
`DirectionViolationError` instead). -/
theorem C8_contract_mismatch_rejected (s : BacktestPosition)
    (t : Transaction) (hopen : s.is_closed = false)
    (hc : t.contract ≠ s.contract)
    (hd : |sign (s.number_of_shares + t.quantity) - s.direction| < 2) :
    transact_transaction s t =
      (Except.error PositionError.contractMismatch, s) := by
  unfold transact_transaction
  rw [if_neg (by simp [hopen]), if_neg (not_not_intro hd), if_pos hc]

/-- Claim C8, witness: a non-flipping buy of one share on the wrong
contract is rejected with `ContractMismatchError` (its zero-respecting
quantity and positive price notwithstanding). -/
theorem C8_contract_mismatch_rejected_witness :
    transact_transaction pos5 ⟨1, 1, 10, 0⟩ =
      (Except.error PositionError.contractMismatch, pos5) :=
  C8_contract_mismatch_rejected pos5 ⟨1, 1, 10, 0⟩ rfl (by decide)
    (by norm_num [pos5, sign])

/-- The realized-PnL formula as the spec words it: sum, over exactly those
recorded transactions whose quantity sign is opposite to the fixed
direction, of `(price - avgCostPerShare) * (-quantity) - commission`. -/
def realized_pnl_spec (s : BacktestPosition) : ℚ :=
  ((s.transactions.filter (fun t => sign t.quantity = -s.direction)).map
    (fun t => (t.price - avg_cost_per_share s) * (-t.quantity) -
      t.commission)).sum

/-- Claim C6: on every reachable state the code's `realized_pnl` (which
keeps the transactions whose quantity sign merely differs from the
direction) coincides with the spec's formula over the transactions whose
quantity sign is opposite to the direction; on the worked example the
value is `(110 - 100.1) * 4 - 1 = 38.6` and the position stays open with 6
shares. -/
theorem C6_realized_pnl_formula :
    (∀ s : BacktestPosition, Reachable s →
      realized_pnl s = realized_pnl_spec s) ∧
    realized_pnl pos2 = 193 / 5 ∧ pos2.number_of_shares = 6 ∧
    pos2.is_closed = false := by
  refine ⟨?_, ?_, by norm_num [pos2], rfl⟩
  · intro s hr
    have hi := reachable_inv hr
    simp only [realized_pnl, realized_pnl_spec]
    have hfil : s.transactions.filter
        (fun t => sign t.quantity ≠ s.direction) =
        s.transactions.filter (fun t => sign t.quantity = -s.direction) := by
      apply List.filter_congr
      intro u hu
      have hne : s.transactions ≠ [] := by
        intro he
        rw [he] at hu
        exact absurd hu (List.not_mem_nil u)
      have hq := (hi.txn_valid u hu).1
      have hd3 := hi.dir_set hne
      simp only [decide_eq_decide]
      rcases sign_trichotomy u.quantity with h1 | h1 | h1
      · rw [h1]
        rcases hd3 with h | h <;> rw [h] <;> omega
      · exact absurd ((sign_eq_zero_iff _).mp h1) hq
      · rw [h1]
        rcases hd3 with h | h <;> rw [h] <;> omega
    rw [hfil]
  · norm_num [realized_pnl, avg_cost_per_share, pos2, txn_buy10, txn_sell4,
      sign, List.filter]

/-- Claim C6, witness: the coincidence of the two formulas evaluated on the
worked example's partially closed long position. -/
theorem C6_realized_pnl_formula_witness :
    realized_pnl pos2 = realized_pnl_spec pos2 :=
  C6_realized_pnl_formula.1 pos2 (reachableT_reachable reachableT_pos2)

end QfLib
